import Mathlib

/-!
Verification of the streaming evaluation metrics in
`python/paddle/metric/metrics.py`: the four concrete `Metric` variants
`Accuracy`, `Precision`, `Recall` and `Auc`.

Modelling conventions:
* Python floats are modelled as `ℚ` (the computations under study are
  order comparisons, additions and exact divisions on small decimals).
* Python ints are modelled as `ℤ` (labels) or `ℕ` (counters, sizes).
* numpy arrays are modelled as `List`s; a `[batch, 1]` column of labels
  is modelled as `List ℤ`, a `[batch, 2]` prediction matrix as
  `List (ℚ × ℚ)`.
* Python exceptions are modelled with `Except PyError`; methods that
  cannot raise are total functions.
* The source iterates `for i in range(labels.shape[0])` and indexes
  `preds[i]`; we model this as iteration over `preds.zip labels`, which
  agrees with the source whenever `preds` is at least as long as
  `labels` (the only case exercised by the specification; a shorter
  `preds` would be an IndexError in the source).
-/

/-- The Python exceptions raised by the metric code: `ValueError` with the
offending parameter name (`The 'x' must be a numpy ndarray or Tensor.`),
the `assert bin_idx <= num_thresholds` failure in `Auc.update`,
`ZeroDivisionError` in `Accuracy.update` on an empty batch, and
`IndexError` for an out-of-range numpy index. -/
inductive PyError where
  | invalidInput (param : String)
  | assertionError
  | zeroDivisionError
  | indexError
  deriving Repr, DecidableEq

deriving instance DecidableEq for Except

/-- Python `int(x)` on a float: truncation toward zero. -/
def pyTrunc (x : ℚ) : ℤ :=
  if x < 0 then -(Rat.floor (-x)) else Rat.floor x

/-- numpy indexing semantics for a 1-D array of length `len`: an index
`0 ≤ i < len` is used directly, a negative index `-len ≤ i < 0` wraps to
`len + i`, anything else raises `IndexError`. -/
def pyIndex (len : ℕ) (i : ℤ) : Except PyError ℕ :=
  if 0 ≤ i then
    if i < (len : ℤ) then .ok i.toNat else .error .indexError
  else
    if -(len : ℤ) ≤ i then .ok ((len : ℤ) + i).toNat else .error .indexError

/-- `np.floor(p + 0.5)` as an integer: round-half-up, used by
`Precision.update`. -/
def roundHalfUp (x : ℚ) : ℤ := Rat.floor (x + 1/2)

/-- `np.rint`: round to nearest integer, ties to even,
used by `Recall.update`. -/
def rint (x : ℚ) : ℤ :=
  let f := Rat.floor x
  let r := x - f
  if r < 1/2 then f
  else if 1/2 < r then f + 1
  else if f % 2 = 0 then f else f + 1

/-- An argument passed to `update`: a `paddle.Tensor` (carrying the array
its `.numpy()` conversion yields), a numpy ndarray, or anything else
(the case `_is_numpy_` rejects). -/
inductive MetricInput (α : Type) where
  | tensor (a : α)
  | ndarray (a : α)
  | other
  deriving Repr, DecidableEq

/-- The shared input-conversion prologue of `Precision.update`,
`Recall.update` and `Auc.update`: a Tensor is converted via `.numpy()`,
an ndarray passes through, anything else raises
`ValueError("The 'param' must be a numpy ndarray or Tensor.")`. -/
def convertInput {α : Type} (param : String) : MetricInput α → Except PyError α
  | .tensor a => .ok a
  | .ndarray a => .ok a
  | .other => .error (.invalidInput param)

namespace Precision

/-- State of `paddle.metric.Precision`: true-positive and false-positive
counters, both initialised to 0. -/
structure State where
  tp : ℕ
  fp : ℕ
  deriving Repr, DecidableEq

/-- `Precision.__init__` / the counter part of construction. -/
def init : State := ⟨0, 0⟩

/-- `Precision.reset`: sets `tp` and `fp` back to 0. -/
def reset (_s : State) : State := ⟨0, 0⟩

/-- One iteration of the loop in `Precision.update`: `pred` is the
round-half-up decision; if it is 1, `tp` is incremented when it equals
the label and `fp` otherwise. -/
def updateSample (s : State) (pl : ℚ × ℤ) : State :=
  let pred := roundHalfUp pl.1
  let label := pl.2
  if pred = 1 then
    if pred = label then { s with tp := s.tp + 1 } else { s with fp := s.fp + 1 }
  else s

/-- `Precision.update` after input conversion: `preds` are rounded with
`np.floor(preds + 0.5)` and each sample updates the counters. -/
def update (s : State) (preds : List ℚ) (labels : List ℤ) : State :=
  (preds.zip labels).foldl updateSample s

/-- `Precision.update` with the input-validation prologue: `preds` is
checked first, then `labels`. -/
def updateChecked (s : State) (preds : MetricInput (List ℚ))
    (labels : MetricInput (List ℤ)) : Except PyError State := do
  let p ← convertInput "preds" preds
  let l ← convertInput "labels" labels
  .ok (update s p l)

/-- `Precision.accumulate`: `tp / (tp + fp)` unless the denominator is
zero, in which case `0.0`. -/
def accumulate (s : State) : ℚ :=
  let ap := s.tp + s.fp
  if ap ≠ 0 then (s.tp : ℚ) / (ap : ℚ) else 0

/-- `Precision.accumulate` as the translated method: the body reads
`self.tp`/`self.fp` and assigns no attribute, so the post-state is the
pre-state. -/
def accumulateS (s : State) : ℚ × State := (accumulate s, s)

end Precision

namespace Recall

/-- State of `paddle.metric.Recall`: true-positive and false-negative
counters, both initialised to 0. -/
structure State where
  tp : ℕ
  fn : ℕ
  deriving Repr, DecidableEq

/-- `Recall.__init__` / the counter part of construction. -/
def init : State := ⟨0, 0⟩

/-- `Recall.reset`: sets `tp` and `fn` back to 0. -/
def reset (_s : State) : State := ⟨0, 0⟩

/-- One iteration of the loop in `Recall.update`: if the label is 1,
`tp` is incremented when the `np.rint` decision equals the label and
`fn` otherwise. -/
def updateSample (s : State) (pl : ℚ × ℤ) : State :=
  let pred := rint pl.1
  let label := pl.2
  if label = 1 then
    if pred = label then { s with tp := s.tp + 1 } else { s with fn := s.fn + 1 }
  else s

/-- `Recall.update` after input conversion: `preds` are rounded with
`np.rint` and each sample updates the counters. -/
def update (s : State) (preds : List ℚ) (labels : List ℤ) : State :=
  (preds.zip labels).foldl updateSample s

/-- `Recall.update` with the input-validation prologue: `preds` is
checked first, then `labels`. -/
def updateChecked (s : State) (preds : MetricInput (List ℚ))
    (labels : MetricInput (List ℤ)) : Except PyError State := do
  let p ← convertInput "preds" preds
  let l ← convertInput "labels" labels
  .ok (update s p l)

/-- `Recall.accumulate`: `tp / (tp + fn)` unless the denominator is
zero, in which case `0.0`. -/
def accumulate (s : State) : ℚ :=
  let r := s.tp + s.fn
  if r ≠ 0 then (s.tp : ℚ) / (r : ℚ) else 0

/-- `Recall.accumulate` as the translated method: the body assigns no
attribute, so the post-state is the pre-state. -/
def accumulateS (s : State) : ℚ × State := (accumulate s, s)

end Recall

namespace Accuracy

/-- State of `paddle.metric.Accuracy`: the requested top-k cutoffs and,
aligned with them, the running `total` of correct predictions and
`count` of samples seen. -/
structure State where
  topk : List ℕ
  total : List ℚ
  count : List ℕ
  deriving Repr, DecidableEq

/-- `Accuracy.__init__(topk)`: `total`/`count` start as zero lists of
the same length as `topk` (via the `reset()` call in the
constructor). -/
def init (topk : List ℕ) : State :=
  ⟨topk, List.replicate topk.length 0, List.replicate topk.length 0⟩

/-- `Accuracy.reset`: `total = [0.] * len(topk)`,
`count = [0] * len(topk)`. -/
def reset (s : State) : State :=
  { s with total := List.replicate s.topk.length 0,
           count := List.replicate s.topk.length 0 }

/-- Insert index `i` into an already-sorted index list of a row `r`,
placing `i` before the first index whose score is not above `r[i]`.
Helper for `argsortDesc`. -/
def insertIdx (r : List ℚ) (i : ℕ) : List ℕ → List ℕ
  | [] => [i]
  | j :: js => if r.getD j 0 ≤ r.getD i 0 then i :: j :: js else j :: insertIdx r i js

/-- `paddle.argsort(row, descending=True)` on one row: the indices of
the row sorted by score, highest first (ties keep the lower index
first; the concrete inputs in the spec have no ties). -/
def argsortDesc (r : List ℚ) : List ℕ :=
  (List.range r.length).foldr (fun i acc => insertIdx r i acc) []

/-- `Accuracy.compute(pred, label)`: per row, argsort descending, keep
the first `maxk` class indices, compare each against the row's label
and cast the boolean mask to 0/1 floats. -/
def compute (maxk : ℕ) (pred : List (List ℚ)) (label : List ℤ) : List (List ℚ) :=
  (pred.zip label).map fun rl =>
    ((argsortDesc rl.1).take maxk).map fun idx => if (idx : ℤ) = rl.2 then 1 else 0

/-- `correct[:, :k].sum()`: sum of the first `k` entries of every row of
the mask. -/
def maskSumFirst (correct : List (List ℚ)) (k : ℕ) : ℚ :=
  (correct.map fun row => ((row.take k).foldl (· + ·) 0)).foldl (· + ·) 0

/-- One iteration of the `for i, k in enumerate(self.topk)` loop of
`Accuracy.update`, acting on the accumulated `(accs, total, count)`
triple for one `(k, total[i], count[i])` entry.  The per-batch ratio
`float(num_corrects) / num_samples` raises `ZeroDivisionError` when the
batch is empty; the counter updates on `self.total[i]`/`self.count[i]`
happen after that division. -/
def updateStep (correct : List (List ℚ)) (acc : List ℚ × List ℚ × List ℕ)
    (tk : ℕ × ℚ × ℕ) : Except PyError (List ℚ × List ℚ × List ℕ) :=
  let numCorrects := maskSumFirst correct tk.1
  let numSamples := correct.length
  if numSamples = 0 then .error .zeroDivisionError
  else .ok (acc.1 ++ [numCorrects / (numSamples : ℚ)],
            acc.2.1 ++ [tk.2.1 + numCorrects],
            acc.2.2 ++ [tk.2.2 + numSamples])

/-- `Accuracy.update(correct)`: walks `topk` (paired with the aligned
`total`/`count` entries), accumulates each cutoff's correct count and
the batch size, and returns the per-batch accuracies (a scalar when
there is a single cutoff) together with the new state. -/
def updateM (s : State) (correct : List (List ℚ)) :
    Except PyError ((ℚ ⊕ List ℚ) × State) := do
  let r ← (s.topk.zip (s.total.zip s.count)).foldlM (updateStep correct) ([], [], [])
  let accs := if s.topk.length = 1 then Sum.inl (r.1.headD 0) else Sum.inr r.1
  .ok (accs, { s with total := r.2.1, count := r.2.2 })

/-- The state part of `Accuracy.update`. -/
def updateState (s : State) (correct : List (List ℚ)) : Except PyError State :=
  (updateM s correct).map (·.2)

/-- `Accuracy.accumulate`: per cutoff `total/count` (or `0.` when
`count` is zero); a single cutoff collapses to a scalar. -/
def accumulate (s : State) : ℚ ⊕ List ℚ :=
  let res := (s.total.zip s.count).map fun tc => if 0 < tc.2 then tc.1 / (tc.2 : ℚ) else 0
  if s.topk.length = 1 then Sum.inl (res.headD 0) else Sum.inr res

/-- `Accuracy.accumulate` as the translated method: the body only
builds the local `res`, so the post-state is the pre-state. -/
def accumulateS (s : State) : (ℚ ⊕ List ℚ) × State := (accumulate s, s)

end Accuracy

namespace Auc

/-- State of `paddle.metric.Auc`: the configured `num_thresholds` and
the two bucket-count arrays `_stat_pos`/`_stat_neg`, created with
`num_thresholds + 1` slots. -/
structure State where
  numThresholds : ℕ
  statPos : List ℚ
  statNeg : List ℚ
  deriving Repr, DecidableEq

/-- `Auc.__init__(num_thresholds)`: both stat arrays are
`np.zeros(num_thresholds + 1)`. -/
def init (numThresholds : ℕ) : State :=
  ⟨numThresholds, List.replicate (numThresholds + 1) 0, List.replicate (numThresholds + 1) 0⟩

/-- `Auc.reset`: re-creates both stat arrays as
`np.zeros(num_thresholds + 1)`. -/
def reset (s : State) : State :=
  { s with statPos := List.replicate (s.numThresholds + 1) 0,
           statNeg := List.replicate (s.numThresholds + 1) 0 }

/-- The bucket index computed in `Auc.update`:
`bin_idx = int(value * self._num_thresholds)`. -/
def binIdx (numThresholds : ℕ) (value : ℚ) : ℤ :=
  pyTrunc (value * (numThresholds : ℚ))

/-- One iteration of the `for i, lbl in enumerate(labels)` loop of
`Auc.update`: `value = preds[i, 1]`, compute the bucket index, run
`assert bin_idx <= num_thresholds`, then increment `_stat_pos[bin_idx]`
when the label is truthy and `_stat_neg[bin_idx]` otherwise (numpy
index semantics, so a negative surviving index wraps). -/
def updateSample (s : State) (pl : (ℚ × ℚ) × ℤ) : Except PyError State := do
  let value := pl.1.2
  let bin := binIdx s.numThresholds value
  if bin ≤ (s.numThresholds : ℤ) then
    if pl.2 ≠ 0 then do
      let j ← pyIndex s.statPos.length bin
      .ok { s with statPos := s.statPos.set j (s.statPos.getD j 0 + 1) }
    else do
      let j ← pyIndex s.statNeg.length bin
      .ok { s with statNeg := s.statNeg.set j (s.statNeg.getD j 0 + 1) }
  else .error .assertionError

/-- `Auc.update(preds, labels)` after input conversion: `preds` are
rows of the `[batch, 2]` probability matrix, iterated in step with
`labels`. -/
def update (s : State) (preds : List (ℚ × ℚ)) (labels : List ℤ) :
    Except PyError State :=
  (preds.zip labels).foldlM updateSample s

/-- `Auc.update` with the input-validation prologue: the source checks
`labels` first, then `preds`. -/
def updateChecked (s : State) (preds : MetricInput (List (ℚ × ℚ)))
    (labels : MetricInput (List ℤ)) : Except PyError State := do
  let l ← convertInput "labels" labels
  let p ← convertInput "preds" preds
  update s p l

/-- `Auc.trapezoid_area(x1, x2, y1, y2) = |x1 - x2| * (y1 + y2) / 2`. -/
def trapezoid_area (x1 x2 y1 y2 : ℚ) : ℚ :=
  |x1 - x2| * (y1 + y2) / 2

/-- One iteration of the `while idx >= 0` loop of `Auc.accumulate` at
bucket `idx`, acting on the `(tot_pos, tot_neg, auc)` triple. -/
def aucStep (sp sn : ℕ → ℚ) (idx : ℕ) (acc : ℚ × ℚ × ℚ) : ℚ × ℚ × ℚ :=
  let totPos := acc.1 + sp idx
  let totNeg := acc.2.1 + sn idx
  (totPos, totNeg, acc.2.2 + trapezoid_area totNeg acc.2.1 totPos acc.1)

/-- The `while idx >= 0: ...; idx -= 1` loop of `Auc.accumulate`,
started at bucket `idx` and running down to bucket 0. -/
def aucLoop (sp sn : ℕ → ℚ) : ℕ → ℚ × ℚ × ℚ → ℚ × ℚ × ℚ
  | 0, acc => aucStep sp sn 0 acc
  | j + 1, acc => aucLoop sp sn j (aucStep sp sn (j + 1) acc)

/-- `Auc.accumulate`: run the descending bucket walk from
`num_thresholds`, then return `auc / tot_pos / tot_neg` when both
totals are positive and `0.0` otherwise. -/
def accumulate (s : State) : ℚ :=
  let r := aucLoop (fun i => s.statPos.getD i 0) (fun i => s.statNeg.getD i 0)
    s.numThresholds (0, 0, 0)
  if 0 < r.1 ∧ 0 < r.2.1 then r.2.2 / r.1 / r.2.1 else 0

/-- `Auc.accumulate` as the translated method: the loop only mutates
the local `tot_pos`/`tot_neg`/`auc`/`idx`, so the post-state is the
pre-state. -/
def accumulateS (s : State) : ℚ × State := (accumulate s, s)

/-- Cumulative bucket count from bucket `k` up to bucket `n`
(the running total the descending walk holds right after processing
bucket `k`). -/
def cumFrom (f : ℕ → ℚ) (n k : ℕ) : ℚ := ∑ i ∈ Finset.Icc k n, f i

/-- The specification's description of the accumulated area: one
trapezoid per bucket, between the cumulative `(tot_neg, tot_pos)` pair
before processing the bucket and the pair after it. -/
def specAuc (sp sn : ℕ → ℚ) (n : ℕ) : ℚ :=
  ∑ k ∈ Finset.range (n + 1),
    trapezoid_area (cumFrom sn n k) (cumFrom sn n (k + 1))
      (cumFrom sp n k) (cumFrom sp n (k + 1))

/-- The specification's description of `Auc.accumulate`: with
`tot_pos`/`tot_neg` the sums of all buckets, return
`auc / tot_pos / tot_neg` when both are positive and `0.0`
otherwise. -/
def specAccumulate (s : State) : ℚ :=
  let sp := fun i => s.statPos.getD i 0
  let sn := fun i => s.statNeg.getD i 0
  let n := s.numThresholds
  if 0 < cumFrom sp n 0 ∧ 0 < cumFrom sn n 0 then
    specAuc sp sn n / cumFrom sp n 0 / cumFrom sn n 0
  else 0

end Auc

namespace Auc

/-- The cumulative count starting past the last bucket is zero. -/
lemma cumFrom_empty (f : ℕ → ℚ) (n : ℕ) : cumFrom f n (n + 1) = 0 := by
  unfold cumFrom
  rw [Finset.Icc_eq_empty (by omega), Finset.sum_empty]

/-- Peeling the lowest bucket off a cumulative count. -/
lemma cumFrom_bot (f : ℕ → ℚ) {n k : ℕ} (h : k ≤ n) :
    cumFrom f n k = f k + cumFrom f n (k + 1) := by
  unfold cumFrom
  rw [Nat.Icc_succ_left, ← Finset.Ioc_insert_left h,
    Finset.sum_insert Finset.left_not_mem_Ioc]

/-- Invariant of the descending `while` loop of `Auc.accumulate`: when
entered at bucket `idx` with the cumulative totals for buckets above
`idx`, it finishes with the full totals and adds one trapezoid per
remaining bucket. -/
lemma aucLoop_eq (sp sn : ℕ → ℚ) (n : ℕ) :
    ∀ idx, idx ≤ n → ∀ a : ℚ,
      aucLoop sp sn idx (cumFrom sp n (idx + 1), cumFrom sn n (idx + 1), a)
        = (cumFrom sp n 0, cumFrom sn n 0,
            a + ∑ k ∈ Finset.range (idx + 1),
              trapezoid_area (cumFrom sn n k) (cumFrom sn n (k + 1))
                (cumFrom sp n k) (cumFrom sp n (k + 1))) := by
  intro idx
  induction idx with
  | zero =>
    intro h a
    have hp : cumFrom sp n 0 = sp 0 + cumFrom sp n 1 := by
      simpa using cumFrom_bot sp (Nat.zero_le n)
    have hn : cumFrom sn n 0 = sn 0 + cumFrom sn n 1 := by
      simpa using cumFrom_bot sn (Nat.zero_le n)
    simp only [aucLoop, aucStep, Nat.zero_add, Finset.sum_range_one]
    rw [hp, hn]
    refine Prod.ext (by ring) (Prod.ext (by ring) ?_)
    rw [add_comm (sn 0) (cumFrom sn n 1), add_comm (sp 0) (cumFrom sp n 1)]
  | succ j ih =>
    intro h a
    have hp := cumFrom_bot sp (show j + 1 ≤ n from h)
    have hn := cumFrom_bot sn (show j + 1 ≤ n from h)
    have harg :
        aucStep sp sn (j + 1) (cumFrom sp n (j + 1 + 1), cumFrom sn n (j + 1 + 1), a)
          = (cumFrom sp n (j + 1), cumFrom sn n (j + 1),
              a + trapezoid_area (cumFrom sn n (j + 1)) (cumFrom sn n (j + 1 + 1))
                (cumFrom sp n (j + 1)) (cumFrom sp n (j + 1 + 1))) := by
      simp only [aucStep]
      rw [hp, hn]
      refine Prod.ext (by ring) (Prod.ext (by ring) ?_)
      rw [add_comm (sn (j + 1)) (cumFrom sn n (j + 1 + 1)),
        add_comm (sp (j + 1)) (cumFrom sp n (j + 1 + 1))]
    show aucLoop sp sn j (aucStep sp sn (j + 1) _) = _
    rw [harg, ih (by omega)]
    refine Prod.ext rfl (Prod.ext rfl ?_)
    conv_rhs => rw [Finset.sum_range_succ]
    ring

/-- `Auc.accumulate` computes exactly the specification's declarative
description: the sum of per-bucket trapezoids between consecutive
cumulative `(tot_neg, tot_pos)` pairs, normalised by the two bucket
totals when both are positive, and `0.0` otherwise. -/
lemma accumulate_eq_spec (s : State) : accumulate s = specAccumulate s := by
  have h := aucLoop_eq (fun i => s.statPos.getD i 0) (fun i => s.statNeg.getD i 0)
    s.numThresholds s.numThresholds le_rfl 0
  rw [cumFrom_empty, cumFrom_empty] at h
  simp only [accumulate, specAccumulate, specAuc, h, zero_add]

end Auc

/-- Running the counter loop of `Precision.update` over a list of
`(prediction, label)` pairs adds to `tp` the number of samples whose
round-half-up decision is 1 with label 1, and to `fp` the number whose
decision is 1 with label ≠ 1. -/
lemma Precision.precision_counts (l : List (ℚ × ℤ)) : ∀ s : Precision.State,
    (l.foldl Precision.updateSample s).tp
        = s.tp + l.countP (fun pl => decide (roundHalfUp pl.1 = 1 ∧ pl.2 = 1))
      ∧ (l.foldl Precision.updateSample s).fp
        = s.fp + l.countP (fun pl => decide (roundHalfUp pl.1 = 1 ∧ pl.2 ≠ 1)) := by
  induction l with
  | nil => simp
  | cons hd tl ih =>
    intro s
    obtain ⟨ih1, ih2⟩ := ih (Precision.updateSample s hd)
    simp only [List.foldl_cons, List.countP_cons, ih1, ih2]
    unfold Precision.updateSample
    by_cases h1 : roundHalfUp hd.1 = 1 <;> by_cases h2 : hd.2 = 1 <;>
      simp [h1, h2, eq_comm] <;> omega

/-- Running the counter loop of `Recall.update` over a list of
`(prediction, label)` pairs adds to `tp` the number of label-1 samples
whose `np.rint` decision is 1, and to `fn` the number of label-1
samples whose decision is not 1. -/
lemma Recall.recall_counts (l : List (ℚ × ℤ)) : ∀ s : Recall.State,
    (l.foldl Recall.updateSample s).tp
        = s.tp + l.countP (fun pl => decide (pl.2 = 1 ∧ rint pl.1 = 1))
      ∧ (l.foldl Recall.updateSample s).fn
        = s.fn + l.countP (fun pl => decide (pl.2 = 1 ∧ rint pl.1 ≠ 1)) := by
  induction l with
  | nil => simp
  | cons hd tl ih =>
    intro s
    obtain ⟨ih1, ih2⟩ := ih (Recall.updateSample s hd)
    simp only [List.foldl_cons, List.countP_cons, ih1, ih2]
    unfold Recall.updateSample
    by_cases h1 : rint hd.1 = 1 <;> by_cases h2 : hd.2 = 1 <;>
      simp [h1, h2, eq_comm] <;> omega

/-- C1: `Auc.accumulate` walks the bucket index from `num_thresholds`
down to 0, maintains running cumulative totals `tot_pos`/`tot_neg` of
`stat_pos`/`stat_neg`, adds at each step the trapezoid area
`|x1 - x2| * (y1 + y2) / 2` with x = `tot_neg`, y = `tot_pos` between
the previous and current cumulative pair, and returns
`auc / tot_pos / tot_neg` when both final totals are strictly positive
and `0.0` otherwise. -/
theorem auc_accumulate_is_trapezoid_spec (s : Auc.State) :
    Auc.accumulate s = Auc.specAccumulate s :=
  Auc.accumulate_eq_spec s

set_option maxRecDepth 8000 in
/-- C2: for `Accuracy` with `topk = (1,)`, running `compute`, `update`,
`accumulate` on the four documented prediction rows with labels
`[[0], [1], [2], [3]]` yields exactly 0.75. -/
theorem accuracy_concrete_is_three_quarters :
    (Accuracy.updateM (Accuracy.init [1])
        (Accuracy.compute 1
          [[1/10, 2/10, 3/10, 4/10], [1/10, 4/10, 3/10, 2/10],
           [1/10, 2/10, 4/10, 3/10], [1/10, 2/10, 3/10, 4/10]]
          [0, 1, 2, 3])).map (fun r => Accuracy.accumulate r.2)
      = .ok (Sum.inl (3/4)) := by
  with_unfolding_all decide

set_option maxRecDepth 4000 in
/-- C3: `Precision.update` rounds predictions with
`floor(pred + 0.5)`, counts a decision-1 sample into `tp` when the
label is also 1 and into `fp` otherwise, leaves both counters alone on
decision ≠ 1, `Precision.accumulate` returns `tp / (tp + fp)` when the
denominator is positive and `0.0` otherwise, and the documented example
accumulates to 1.0. -/
theorem precision_update_accumulate :
    (∀ (s : Precision.State) (preds : List ℚ) (labels : List ℤ),
        (Precision.update s preds labels).tp
            = s.tp + (preds.zip labels).countP
                (fun pl => decide (roundHalfUp pl.1 = 1 ∧ pl.2 = 1))
          ∧ (Precision.update s preds labels).fp
            = s.fp + (preds.zip labels).countP
                (fun pl => decide (roundHalfUp pl.1 = 1 ∧ pl.2 ≠ 1)))
      ∧ (∀ s : Precision.State,
          Precision.accumulate s
            = if 0 < s.tp + s.fp then (s.tp : ℚ) / ((s.tp : ℚ) + (s.fp : ℚ)) else 0)
      ∧ Precision.accumulate
          (Precision.update Precision.init [1/10, 1/2, 3/5, 7/10] [0, 1, 1, 1]) = 1 := by
  refine ⟨fun s preds labels => Precision.precision_counts _ s, fun s => ?_, ?_⟩
  · unfold Precision.accumulate
    rcases Nat.eq_zero_or_pos (s.tp + s.fp) with h | h
    · simp [h]
    · simp only [Nat.pos_iff_ne_zero.mp h, if_pos h, ne_eq, not_false_iff, if_true]
      push_cast
      ring_nf
  · with_unfolding_all decide

/-- Shifting the initial value out of a left fold of rational
additions. -/
lemma foldl_add_shift (l : List ℚ) : ∀ a : ℚ, l.foldl (· + ·) a = a + l.foldl (· + ·) 0 := by
  induction l with
  | nil => simp
  | cons hd tl ih =>
    intro a
    simp only [List.foldl_cons]
    rw [ih (a + hd), ih (0 + hd)]
    ring

/-- `correct[:, :k].sum()` over the concatenation of two batches is the
sum over the batches. -/
lemma Accuracy.maskSumFirst_append (c1 c2 : List (List ℚ)) (k : ℕ) :
    maskSumFirst (c1 ++ c2) k = maskSumFirst c1 k + maskSumFirst c2 k := by
  unfold maskSumFirst
  rw [List.map_append, List.foldl_append, foldl_add_shift]

/-- Closed form of the `Except`-valued fold of `Accuracy.updateStep`
over any entry list, for a non-empty batch. -/
lemma Accuracy.foldlM_updateStep (c : List (List ℚ)) (hc : c ≠ [])
    (Z : List (ℕ × ℚ × ℕ)) :
    ∀ acc, Z.foldlM (updateStep c) acc
      = .ok (acc.1 ++ Z.map (fun tk => maskSumFirst c tk.1 / (c.length : ℚ)),
             acc.2.1 ++ Z.map (fun tk => tk.2.1 + maskSumFirst c tk.1),
             acc.2.2 ++ Z.map (fun tk => tk.2.2 + c.length)) := by
  have hlen : c.length ≠ 0 := by simpa [List.length_eq_zero] using hc
  induction Z with
  | nil => intro acc; simp [pure, Except.pure]
  | cons hd tl ih =>
    intro acc
    rw [List.foldlM_cons]
    have hstep : updateStep c acc hd
        = .ok (acc.1 ++ [maskSumFirst c hd.1 / (c.length : ℚ)],
               acc.2.1 ++ [hd.2.1 + maskSumFirst c hd.1],
               acc.2.2 ++ [hd.2.2 + c.length]) := by
      unfold updateStep
      simp [hlen]
    rw [hstep]
    show tl.foldlM (updateStep c) _ = _
    rw [ih]
    simp

/-- Closed form of `Accuracy.updateState` on a non-empty batch: the
batch never raises and adds each cutoff's mask sum to `total` and the
batch size to `count`. -/
lemma Accuracy.updateState_closed (s : State) (c : List (List ℚ)) (hc : c ≠ []) :
    updateState s c = .ok { s with
      total := (s.topk.zip (s.total.zip s.count)).map
        (fun tk => tk.2.1 + maskSumFirst c tk.1),
      count := (s.topk.zip (s.total.zip s.count)).map
        (fun tk => tk.2.2 + c.length) } := by
  unfold updateState updateM
  rw [show (([], [], []) : List ℚ × List ℚ × List ℕ)
      = (([] : List ℚ), ([] : List ℚ), ([] : List ℕ)) from rfl]
  rw [foldlM_updateStep c hc _ ([], [], [])]
  rfl

/-- Re-zipping the cutoffs against mapped `total`/`count` lists is a
map over the original zip. -/
lemma Accuracy.zip_map_pair (f : ℕ × ℚ × ℕ → ℚ) (g : ℕ × ℚ × ℕ → ℕ) :
    ∀ (ks : List ℕ) (ts : List ℚ) (cs : List ℕ),
      ks.zip (((ks.zip (ts.zip cs)).map f).zip ((ks.zip (ts.zip cs)).map g))
        = (ks.zip (ts.zip cs)).map (fun tk => (tk.1, f tk, g tk)) := by
  intro ks
  induction ks with
  | nil => intro ts cs; simp
  | cons k ks ih =>
    intro ts cs
    cases ts with
    | nil => simp
    | cons t ts =>
      cases cs with
      | nil => simp
      | cons c0 cs => simp [ih ts cs]

/-- Feeding two non-empty batches to `Accuracy.update` one after the
other reaches the same state as feeding their concatenation once. -/
lemma Accuracy.updateState_append (s : State) (c1 c2 : List (List ℚ))
    (h1 : c1 ≠ []) (h2 : c2 ≠ []) :
    updateState s (c1 ++ c2) = updateState s c1 >>= fun s1 => updateState s1 c2 := by
  rw [updateState_closed s c1 h1]
  rw [updateState_closed s (c1 ++ c2) (by simp [h1])]
  rw [show ((Except.ok _ : Except PyError State) >>= fun s1 => updateState s1 c2)
      = updateState _ c2 from rfl]
  rw [updateState_closed _ c2 h2]
  simp only [zip_map_pair, List.map_map, Except.ok.injEq, State.mk.injEq]
  refine ⟨trivial, ?_, ?_⟩
  · rw [List.map_inj_left]
    intro tk _
    simp only [Function.comp_apply]
    rw [maskSumFirst_append]
    ring
  · rw [List.map_inj_left]
    intro tk _
    simp only [Function.comp_apply, List.length_append]
    ring

/-- A non-empty list of non-empty batches flattens to a non-empty
list. -/
lemma flatten_ne_nil {α : Type} (bs : List (List α)) (hne : bs ≠ [])
    (hb : ∀ b ∈ bs, b ≠ []) : bs.flatten ≠ [] := by
  cases bs with
  | nil => exact absurd rfl hne
  | cons b rest =>
    simp only [List.flatten_cons]
    exact List.append_ne_nil_of_left_ne_nil (hb b (List.mem_cons_self b rest)) _

/-- Feeding any non-empty sequence of non-empty batches one by one
reaches the same `Accuracy` state as feeding the flattened batch
once. -/
lemma Accuracy.accuracy_batches (bs : List (List (List ℚ))) :
    ∀ s : State, bs ≠ [] → (∀ b ∈ bs, b ≠ []) →
      bs.foldlM updateState s = updateState s bs.flatten := by
  induction bs with
  | nil => intro s hne _; exact absurd rfl hne
  | cons b rest ih =>
    intro s _ hb
    have hb1 : b ≠ [] := hb b (List.mem_cons_self b rest)
    rw [List.foldlM_cons]
    by_cases hr : rest = []
    · subst hr
      simp [updateState]
    · have hrb : ∀ b' ∈ rest, b' ≠ [] := fun b' hm => hb b' (List.mem_cons_of_mem _ hm)
      rw [List.flatten_cons,
        updateState_append s b rest.flatten hb1 (flatten_ne_nil rest hr hrb)]
      rw [updateState_closed s b hb1]
      show rest.foldlM updateState _ = _
      rw [ih _ hr hrb]
      rfl

/-- Feeding two batches to `Precision.update` one after the other
reaches the same state as feeding their concatenation once. -/
lemma Precision.precision_update_append (s : State) (p1 p2 : List ℚ) (l1 l2 : List ℤ)
    (h : p1.length = l1.length) :
    update s (p1 ++ p2) (l1 ++ l2) = update (update s p1 l1) p2 l2 := by
  unfold update
  rw [List.zip_append h, List.foldl_append]

/-- Feeding any sequence of batches to `Precision.update` one by one
reaches the same state as feeding all samples at once. -/
lemma Precision.precision_batches (bs : List (List ℚ × List ℤ)) :
    ∀ s : State, (∀ b ∈ bs, b.1.length = b.2.length) →
      bs.foldl (fun t b => update t b.1 b.2) s
        = update s (bs.map Prod.fst).flatten (bs.map Prod.snd).flatten := by
  induction bs with
  | nil => intro s _; simp [update]
  | cons b rest ih =>
    intro s hb
    simp only [List.foldl_cons, List.map_cons, List.flatten_cons]
    rw [ih _ (fun b' hm => hb b' (List.mem_cons_of_mem _ hm)),
      precision_update_append s _ _ _ _ (hb b (List.mem_cons_self b rest))]

/-- Feeding two batches to `Recall.update` one after the other reaches
the same state as feeding their concatenation once. -/
lemma Recall.recall_update_append (s : State) (p1 p2 : List ℚ) (l1 l2 : List ℤ)
    (h : p1.length = l1.length) :
    update s (p1 ++ p2) (l1 ++ l2) = update (update s p1 l1) p2 l2 := by
  unfold update
  rw [List.zip_append h, List.foldl_append]

/-- Feeding any sequence of batches to `Recall.update` one by one
reaches the same state as feeding all samples at once. -/
lemma Recall.recall_batches (bs : List (List ℚ × List ℤ)) :
    ∀ s : State, (∀ b ∈ bs, b.1.length = b.2.length) →
      bs.foldl (fun t b => update t b.1 b.2) s
        = update s (bs.map Prod.fst).flatten (bs.map Prod.snd).flatten := by
  induction bs with
  | nil => intro s _; simp [update]
  | cons b rest ih =>
    intro s hb
    simp only [List.foldl_cons, List.map_cons, List.flatten_cons]
    rw [ih _ (fun b' hm => hb b' (List.mem_cons_of_mem _ hm)),
      recall_update_append s _ _ _ _ (hb b (List.mem_cons_self b rest))]

/-- Feeding two batches to `Auc.update` one after the other behaves
like feeding their concatenation once (including any raised
exception). -/
lemma Auc.auc_update_append (s : State) (p1 p2 : List (ℚ × ℚ)) (l1 l2 : List ℤ)
    (h : p1.length = l1.length) :
    update s (p1 ++ p2) (l1 ++ l2) = update s p1 l1 >>= fun s1 => update s1 p2 l2 := by
  unfold update
  rw [List.zip_append h, List.foldlM_append]

/-- Feeding any sequence of batches to `Auc.update` one by one behaves
like feeding all samples at once. -/
lemma Auc.auc_batches (bs : List (List (ℚ × ℚ) × List ℤ)) :
    ∀ s : State, (∀ b ∈ bs, b.1.length = b.2.length) →
      bs.foldlM (fun t b => update t b.1 b.2) s
        = update s (bs.map Prod.fst).flatten (bs.map Prod.snd).flatten := by
  induction bs with
  | nil => intro s _; simp [update, pure, Except.pure]
  | cons b rest ih =>
    intro s hb
    simp only [List.foldlM_cons, List.map_cons, List.flatten_cons]
    rw [auc_update_append s _ _ _ _ (hb b (List.mem_cons_self b rest))]
    cases update s b.1 b.2 with
    | error e => rfl
    | ok s1 =>
      show rest.foldlM _ s1 = _
      exact ih s1 (fun b' hm => hb b' (List.mem_cons_of_mem _ hm))

/-- C5: for each of the four metric variants, feeding the same samples
to `update` split into different batch groupings (any sequence of
batches versus a single flattened batch) yields the same final
`accumulate()` result — including, for `Accuracy` and `Auc`, the same
raised exception if any. -/
theorem batch_split_invariance :
    (∀ (s : Accuracy.State) (bs : List (List (List ℚ))),
        bs ≠ [] → (∀ b ∈ bs, b ≠ []) →
        (bs.foldlM Accuracy.updateState s).map Accuracy.accumulate
          = (Accuracy.updateState s bs.flatten).map Accuracy.accumulate)
  ∧ (∀ (s : Precision.State) (bs : List (List ℚ × List ℤ)),
        (∀ b ∈ bs, b.1.length = b.2.length) →
        Precision.accumulate (bs.foldl (fun t b => Precision.update t b.1 b.2) s)
          = Precision.accumulate
              (Precision.update s (bs.map Prod.fst).flatten (bs.map Prod.snd).flatten))
  ∧ (∀ (s : Recall.State) (bs : List (List ℚ × List ℤ)),
        (∀ b ∈ bs, b.1.length = b.2.length) →
        Recall.accumulate (bs.foldl (fun t b => Recall.update t b.1 b.2) s)
          = Recall.accumulate
              (Recall.update s (bs.map Prod.fst).flatten (bs.map Prod.snd).flatten))
  ∧ (∀ (s : Auc.State) (bs : List (List (ℚ × ℚ) × List ℤ)),
        (∀ b ∈ bs, b.1.length = b.2.length) →
        (bs.foldlM (fun t b => Auc.update t b.1 b.2) s).map Auc.accumulate
          = (Auc.update s (bs.map Prod.fst).flatten (bs.map Prod.snd).flatten).map
              Auc.accumulate) := by
  refine ⟨fun s bs h1 h2 => ?_, fun s bs h => ?_, fun s bs h => ?_, fun s bs h => ?_⟩
  · rw [Accuracy.accuracy_batches bs s h1 h2]
  · rw [Precision.precision_batches bs s h]
  · rw [Recall.recall_batches bs s h]
  · rw [Auc.auc_batches bs s h]

/-- Concrete instance of the batch-splitting invariance: two batches of
one sample each against one batch of two samples, for each variant. -/
theorem batch_split_invariance_witness :
    ((([[[1]], [[0]]] : List (List (List ℚ))).foldlM Accuracy.updateState
          (Accuracy.init [1])).map Accuracy.accumulate
        = (Accuracy.updateState (Accuracy.init [1])
            ([[[1]], [[0]]] : List (List (List ℚ))).flatten).map Accuracy.accumulate)
  ∧ (Precision.accumulate
        (([([1/2], [1]), ([0], [0])] : List (List ℚ × List ℤ)).foldl
          (fun t b => Precision.update t b.1 b.2) Precision.init)
      = Precision.accumulate
          (Precision.update Precision.init
            (([([1/2], [1]), ([0], [0])] : List (List ℚ × List ℤ)).map Prod.fst).flatten
            (([([1/2], [1]), ([0], [0])] : List (List ℚ × List ℤ)).map Prod.snd).flatten))
  ∧ (Recall.accumulate
        (([([1/2], [1]), ([0], [0])] : List (List ℚ × List ℤ)).foldl
          (fun t b => Recall.update t b.1 b.2) Recall.init)
      = Recall.accumulate
          (Recall.update Recall.init
            (([([1/2], [1]), ([0], [0])] : List (List ℚ × List ℤ)).map Prod.fst).flatten
            (([([1/2], [1]), ([0], [0])] : List (List ℚ × List ℤ)).map Prod.snd).flatten))
  ∧ ((([([(1/2, 1/2)], [1]), ([(1, 0)], [0])] : List (List (ℚ × ℚ) × List ℤ)).foldlM
          (fun t b => Auc.update t b.1 b.2) (Auc.init 1)).map Auc.accumulate
      = (Auc.update (Auc.init 1)
            (([([(1/2, 1/2)], [1]), ([(1, 0)], [0])] :
              List (List (ℚ × ℚ) × List ℤ)).map Prod.fst).flatten
            (([([(1/2, 1/2)], [1]), ([(1, 0)], [0])] :
              List (List (ℚ × ℚ) × List ℤ)).map Prod.snd).flatten).map Auc.accumulate) :=
  ⟨batch_split_invariance.1 _ _ (by decide) (by decide),
   batch_split_invariance.2.1 _ _ (by decide),
   batch_split_invariance.2.2.1 _ _ (by decide),
   batch_split_invariance.2.2.2 _ _ (by decide)⟩

set_option maxRecDepth 4000 in
/-- C4: `Recall.update` rounds predictions with `np.rint`, counts a
label-1 sample into `tp` when the decision equals the label and into
`fn` otherwise, leaves both counters alone when the label is not 1,
`Recall.accumulate` returns `tp / (tp + fn)` when the denominator is
positive and `0.0` otherwise, and the documented example accumulates to
2/3. -/
theorem recall_update_accumulate :
    (∀ (s : Recall.State) (preds : List ℚ) (labels : List ℤ),
        (Recall.update s preds labels).tp
            = s.tp + (preds.zip labels).countP
                (fun pl => decide (pl.2 = 1 ∧ rint pl.1 = 1))
          ∧ (Recall.update s preds labels).fn
            = s.fn + (preds.zip labels).countP
                (fun pl => decide (pl.2 = 1 ∧ rint pl.1 ≠ 1)))
      ∧ (∀ s : Recall.State,
          Recall.accumulate s
            = if 0 < s.tp + s.fn then (s.tp : ℚ) / ((s.tp : ℚ) + (s.fn : ℚ)) else 0)
      ∧ Recall.accumulate
          (Recall.update Recall.init [1/10, 1/2, 3/5, 7/10] [1, 0, 1, 1]) = 2/3 := by
  refine ⟨fun s preds labels => Recall.recall_counts _ s, fun s => ?_, ?_⟩
  · unfold Recall.accumulate
    rcases Nat.eq_zero_or_pos (s.tp + s.fn) with h | h
    · simp [h]
    · simp only [Nat.pos_iff_ne_zero.mp h, if_pos h, ne_eq, not_false_iff, if_true]
      push_cast
      ring_nf
  · with_unfolding_all decide

/-- `Rat.floor` agrees with the floor of the ordered-field structure on
`ℚ`. -/
lemma ratFloor_eq_floor (q : ℚ) : Rat.floor q = ⌊q⌋ :=
  (Rat.floor_def' q).trans Rat.floor_def.symm

/-- On nonnegative rationals, Python truncation toward zero is the
floor. -/
lemma pyTrunc_nonneg (x : ℚ) (h : 0 ≤ x) : pyTrunc x = ⌊x⌋ := by
  unfold pyTrunc
  rw [if_neg (not_lt.mpr h), ratFloor_eq_floor]

/-- The bucket index of a probability in `[0, 1]` lies in
`[0, num_thresholds]`, for any number of thresholds. -/
lemma Auc.binIdx_bound (v : ℚ) (n : ℕ) (h0 : 0 ≤ v) (h1 : v ≤ 1) :
    0 ≤ binIdx n v ∧ binIdx n v ≤ (n : ℤ) := by
  have hvn : 0 ≤ v * (n : ℚ) := mul_nonneg h0 (by positivity)
  unfold binIdx
  rw [pyTrunc_nonneg _ hvn]
  refine ⟨Int.floor_nonneg.mpr hvn, ?_⟩
  have hle : v * (n : ℚ) ≤ (n : ℚ) := by
    calc v * (n : ℚ) ≤ 1 * (n : ℚ) := mul_le_mul_of_nonneg_right h1 (by positivity)
    _ = (n : ℚ) := one_mul _
  calc ⌊v * (n : ℚ)⌋ ≤ ⌊(n : ℚ)⌋ := Int.floor_mono hle
  _ = (n : ℤ) := Int.floor_natCast n

/-- numpy indexing never raises the `Auc.update` assertion. -/
lemma pyIndex_ne_assert (len : ℕ) (i : ℤ) :
    pyIndex len i ≠ Except.error PyError.assertionError := by
  unfold pyIndex
  split <;> split <;> simp

/-- An `Except` bind whose head avoids an error and whose continuation
avoids it too avoids it. -/
lemma bind_ne_error {α β : Type} (x : Except PyError α) (e : PyError)
    (hx : x ≠ .error e) (g : α → Except PyError β)
    (hg : ∀ a, g a ≠ .error e) : (x >>= g) ≠ .error e := by
  cases x with
  | error e0 =>
    intro h
    have h' : (Except.error e0 : Except PyError β) = Except.error e := h
    injection h' with h''
    exact hx (by rw [h''])
  | ok a =>
    intro h
    exact hg a h

/-- C6: in `Auc.update`, for every prediction probability in `[0, 1]`
and positive `num_thresholds`, the bucket index
`int(value * num_thresholds)` satisfies `0 ≤ bucket ≤ num_thresholds`,
and processing such a sample never raises the fail-fast
`assert bin_idx <= num_thresholds`. -/
theorem auc_bucket_index_bound :
    (∀ (value : ℚ) (n : ℕ), 0 ≤ value → value ≤ 1 → 0 < n →
        0 ≤ Auc.binIdx n value ∧ Auc.binIdx n value ≤ (n : ℤ))
  ∧ (∀ (s : Auc.State) (pl : (ℚ × ℚ) × ℤ), 0 ≤ pl.1.2 → pl.1.2 ≤ 1 →
        Auc.updateSample s pl ≠ .error .assertionError) := by
  constructor
  · intro value n h0 h1 _
    exact Auc.binIdx_bound value n h0 h1
  · intro s pl h0 h1
    unfold Auc.updateSample
    rw [if_pos (Auc.binIdx_bound pl.1.2 s.numThresholds h0 h1).2]
    by_cases hl : pl.2 ≠ 0
    · rw [if_pos hl]
      exact bind_ne_error _ _ (pyIndex_ne_assert _ _) _ (fun j h => Except.noConfusion h)
    · rw [if_neg hl]
      exact bind_ne_error _ _ (pyIndex_ne_assert _ _) _ (fun j h => Except.noConfusion h)

/-- Concrete instance of the bucket-index bound at probability 1/2 with
4 thresholds. -/
theorem auc_bucket_index_bound_witness :
    ((0 : ℚ) ≤ 1/2 ∧ (1 : ℚ)/2 ≤ 1 ∧ 0 < 4
      ∧ 0 ≤ Auc.binIdx 4 (1/2) ∧ Auc.binIdx 4 (1/2) ≤ (4 : ℤ))
  ∧ Auc.updateSample (Auc.init 4) ((1/2, 1/2), 1) ≠ .error .assertionError :=
  ⟨⟨by norm_num, by norm_num, by norm_num,
    auc_bucket_index_bound.1 (1/2) 4 (by norm_num) (by norm_num) (by norm_num)⟩,
   auc_bucket_index_bound.2 (Auc.init 4) ((1/2, 1/2), 1) (by norm_num) (by norm_num)⟩

/-- Every position of a zero-filled list reads back as zero. -/
lemma getD_replicate_zero : ∀ (n i : ℕ), (List.replicate n (0 : ℚ)).getD i 0 = 0 := by
  intro n
  induction n with
  | zero => intro i; simp
  | succ m ih =>
    intro i
    cases i with
    | zero => simp [List.replicate]
    | succ j => simp only [List.replicate, List.getD_cons_succ]; exact ih j

/-- C7: for each of the four metric variants, `accumulate()` straight
after `reset()` returns `0.0` (the all-zero sequence in the
multi-cutoff `Accuracy` case): every division in `accumulate` is
guarded, so the empty state is a normal degenerate case rather than an
error. -/
theorem reset_accumulate_zero :
    (∀ s : Accuracy.State,
        Accuracy.accumulate (Accuracy.reset s)
          = if s.topk.length = 1 then Sum.inl 0
            else Sum.inr (List.replicate s.topk.length 0))
  ∧ (∀ s : Precision.State, Precision.accumulate (Precision.reset s) = 0)
  ∧ (∀ s : Recall.State, Recall.accumulate (Recall.reset s) = 0)
  ∧ (∀ s : Auc.State, Auc.accumulate (Auc.reset s) = 0) := by
  refine ⟨fun s => ?_, fun s => rfl, fun s => rfl, fun s => ?_⟩
  · unfold Accuracy.accumulate Accuracy.reset
    simp only [List.zip_replicate', List.map_replicate, Nat.lt_irrefl, if_false]
    split
    · next h => rw [h]; rfl
    · rfl
  · rw [Auc.accumulate_eq_spec]
    unfold Auc.specAccumulate Auc.reset
    simp only [getD_replicate_zero]
    simp [Auc.cumFrom]

/-- C8: for each of the four metric variants, `accumulate()` is a pure
read — the post-state of the translated method is the pre-state — and
two consecutive `accumulate()` calls with no intervening `update`
return identical values. -/
theorem accumulate_pure_idempotent :
    (∀ s : Accuracy.State, (Accuracy.accumulateS s).2 = s
        ∧ (Accuracy.accumulateS ((Accuracy.accumulateS s).2)).1
            = (Accuracy.accumulateS s).1)
  ∧ (∀ s : Precision.State, (Precision.accumulateS s).2 = s
        ∧ (Precision.accumulateS ((Precision.accumulateS s).2)).1
            = (Precision.accumulateS s).1)
  ∧ (∀ s : Recall.State, (Recall.accumulateS s).2 = s
        ∧ (Recall.accumulateS ((Recall.accumulateS s).2)).1
            = (Recall.accumulateS s).1)
  ∧ (∀ s : Auc.State, (Auc.accumulateS s).2 = s
        ∧ (Auc.accumulateS ((Auc.accumulateS s).2)).1 = (Auc.accumulateS s).1) :=
  ⟨fun _ => ⟨rfl, rfl⟩, fun _ => ⟨rfl, rfl⟩, fun _ => ⟨rfl, rfl⟩, fun _ => ⟨rfl, rfl⟩⟩

/-- C9: for `Precision`, `Recall` and `Auc`, `update` raises a
`ValueError` naming the offending parameter (`preds` or `labels`)
whenever that argument is neither an ndarray nor a Tensor, and a
Tensor argument is converted with `.numpy()` and processed rather than
rejected (`Auc` checks `labels` before `preds`). -/
theorem update_input_validation :
    (∀ (s : Precision.State) (li : MetricInput (List ℤ)),
        Precision.updateChecked s .other li = .error (.invalidInput "preds"))
  ∧ (∀ (s : Precision.State) (p : List ℚ) (l : List ℤ),
        Precision.updateChecked s (.tensor p) .other = .error (.invalidInput "labels")
      ∧ Precision.updateChecked s (.ndarray p) .other = .error (.invalidInput "labels")
      ∧ Precision.updateChecked s (.tensor p) (.tensor l) = .ok (Precision.update s p l)
      ∧ Precision.updateChecked s (.tensor p) (.ndarray l) = .ok (Precision.update s p l)
      ∧ Precision.updateChecked s (.ndarray p) (.tensor l) = .ok (Precision.update s p l)
      ∧ Precision.updateChecked s (.ndarray p) (.ndarray l) = .ok (Precision.update s p l))
  ∧ (∀ (s : Recall.State) (li : MetricInput (List ℤ)),
        Recall.updateChecked s .other li = .error (.invalidInput "preds"))
  ∧ (∀ (s : Recall.State) (p : List ℚ) (l : List ℤ),
        Recall.updateChecked s (.tensor p) .other = .error (.invalidInput "labels")
      ∧ Recall.updateChecked s (.ndarray p) .other = .error (.invalidInput "labels")
      ∧ Recall.updateChecked s (.tensor p) (.tensor l) = .ok (Recall.update s p l)
      ∧ Recall.updateChecked s (.tensor p) (.ndarray l) = .ok (Recall.update s p l)
      ∧ Recall.updateChecked s (.ndarray p) (.tensor l) = .ok (Recall.update s p l)
      ∧ Recall.updateChecked s (.ndarray p) (.ndarray l) = .ok (Recall.update s p l))
  ∧ (∀ (s : Auc.State) (pi : MetricInput (List (ℚ × ℚ))),
        Auc.updateChecked s pi .other = .error (.invalidInput "labels"))
  ∧ (∀ (s : Auc.State) (p : List (ℚ × ℚ)) (l : List ℤ),
        Auc.updateChecked s .other (.tensor l) = .error (.invalidInput "preds")
      ∧ Auc.updateChecked s .other (.ndarray l) = .error (.invalidInput "preds")
      ∧ Auc.updateChecked s (.tensor p) (.tensor l) = Auc.update s p l
      ∧ Auc.updateChecked s (.tensor p) (.ndarray l) = Auc.update s p l
      ∧ Auc.updateChecked s (.ndarray p) (.tensor l) = Auc.update s p l
      ∧ Auc.updateChecked s (.ndarray p) (.ndarray l) = Auc.update s p l) :=
  ⟨fun _ _ => rfl,
   fun _ _ _ => ⟨rfl, rfl, rfl, rfl, rfl, rfl⟩,
   fun _ _ => rfl,
   fun _ _ _ => ⟨rfl, rfl, rfl, rfl, rfl, rfl⟩,
   fun s pi => by cases pi <;> rfl,
   fun _ _ _ => ⟨rfl, rfl, rfl, rfl, rfl, rfl⟩⟩

/-- C10: `Accuracy.update` on an empty batch (a correctness mask with
zero rows) raises `ZeroDivisionError` while computing the per-batch
ratio — the empty-state guard of `accumulate()` has no counterpart in
`update` — rather than returning `0.0` or skipping the batch. -/
theorem accuracy_empty_batch_raises (s : Accuracy.State) (h1 : s.topk ≠ [])
    (h2 : s.total.length = s.topk.length) (h3 : s.count.length = s.topk.length) :
    Accuracy.updateM s [] = .error .zeroDivisionError := by
  unfold Accuracy.updateM
  cases hk : s.topk with
  | nil => exact absurd hk h1
  | cons k ks =>
    cases ht : s.total with
    | nil => rw [ht, hk] at h2; simp at h2
    | cons t ts =>
      cases hc : s.count with
      | nil => rw [hc, hk] at h3; simp at h3
      | cons c0 cs =>
        simp only [List.zip_cons_cons, List.foldlM_cons]
        rw [show Accuracy.updateStep [] ([], [], []) (k, t, c0)
            = .error .zeroDivisionError from rfl]
        rfl

/-- Concrete instance of the empty-batch failure: a freshly constructed
`Accuracy` with `topk = (1,)` updated with an empty mask. -/
theorem accuracy_empty_batch_raises_witness :
    (Accuracy.init [1]).topk ≠ []
  ∧ (Accuracy.init [1]).total.length = (Accuracy.init [1]).topk.length
  ∧ (Accuracy.init [1]).count.length = (Accuracy.init [1]).topk.length
  ∧ Accuracy.updateM (Accuracy.init [1]) [] = .error .zeroDivisionError :=
  ⟨by decide, by decide, by decide,
   accuracy_empty_batch_raises (Accuracy.init [1]) (by decide) (by decide) (by decide)⟩
